import Mathlib

/-!
Verification of the Parthenon metrics GitHub-App client
(`scripts/python/app.py`): a shallow embedding of the `Node` directory-tree
model and of the `App` class's branch, upload and status operations, with
proofs of the specified properties.

Python strings are modelled as Lean `String`s; Python `dict`s as association
lists with unique keys; `None` as `Option.none`; raised exceptions as
`Except.error` carrying the exception message; network traffic as an explicit
list of `NetCall` values describing each request the operation issues.
-/

set_option autoImplicit false

namespace ParthenonApp

/-! ## The `Node` tree model

`class Node` stores branch contents as a tree: a directory name `dir`,
child directories `dirs`, plain entries `files` and `misc`, and the node's
relative path `rel_path`, computed in `__init__` as `rel_path + dir_name`.
-/

/-- Embedding of `class Node` (`app.py` lines 32-75). -/
inductive Node where
  | mk (dir : String) (dirs : List Node) (files : List String)
       (misc : List String) (rel_path : String)

/-- `Node.dir`: the directory name stored in the node. -/
def Node.dir : Node → String
  | .mk d _ _ _ _ => d

/-- `Node.dirs`: the child directory nodes. -/
def Node.dirs : Node → List Node
  | .mk _ ds _ _ _ => ds

/-- `Node.files`: the file entries. -/
def Node.files : Node → List String
  | .mk _ _ fs _ _ => fs

/-- `Node.misc`: the misc entries. -/
def Node.misc : Node → List String
  | .mk _ _ _ ms _ => ms

/-- `Node.rel_path`: the stored relative path. -/
def Node.rel_path : Node → String
  | .mk _ _ _ _ rp => rp

/-- `Node.__init__(dir_name, rel_path)`: fresh node with empty lists and
`self.rel_path = rel_path + dir_name`. -/
def Node.new (dir_name rel_path : String) : Node :=
  .mk dir_name [] [] [] (rel_path ++ dir_name)

/-- The root node: `Node()`, i.e. both defaults are the empty string. -/
def rootNode : Node := Node.new "" ""

/-- `Node.insert(content, content_type)`: a `"dir"` child becomes a new node
built with `Node(content, self.rel_path + "/")`; both the `"file"` branch and
the final `else` branch append `content` to `self.files`. -/
def Node.insert (n : Node) (content content_type : String) : Node :=
  match n with
  | .mk d dirs files misc rp =>
    if content_type = "dir" then
      .mk d (dirs ++ [Node.new content (rp ++ "/")]) files misc rp
    else
      .mk d dirs (files ++ [content]) misc rp

/-- `Node.getNodes()`: the list of child directory nodes. -/
def Node.getNodes (n : Node) : List Node := n.dirs

/-- `Node.getPath()`: the node's relative path. -/
def Node.getPath (n : Node) : String := n.rel_path

/-- Apply `insert` at the node addressed by a list of child-directory
indices, as the recursive branch walk does: an empty address inserts at
this node, `i :: rest` descends into the `i`-th child directory. An address
pointing at no child leaves the tree unchanged. -/
def Node.insertAt (n : Node) (addr : List Nat) (content content_type : String) :
    Node :=
  match addr, n with
  | [], n => n.insert content content_type
  | i :: rest, .mk d dirs files misc rp =>
    match dirs.get? i with
    | none => .mk d dirs files misc rp
    | some child =>
      .mk d (dirs.set i (child.insertAt rest content content_type)) files misc rp
  termination_by addr.length

/-- One recorded insertion: the address of the target node, the content and
the content type. -/
structure InsertOp where
  addr : List Nat
  content : String
  content_type : String

/-- The tree built from the root node by a sequence of insertions. -/
def buildTree (ops : List InsertOp) : Node :=
  ops.foldl (fun n op => n.insertAt op.addr op.content op.content_type) rootNode

/-- The spec's path expression: names joined by `"/"`
("the concatenation of all ancestor names plus its own name, separated
by `/`"). -/
def joinSlash : List String → String
  | [] => ""
  | [s] => s
  | s :: rest => s ++ "/" ++ joinSlash rest

theorem joinSlash_append_single (xs : List String) (y : String) (h : xs ≠ []) :
    joinSlash (xs ++ [y]) = joinSlash xs ++ "/" ++ y := by
  induction xs with
  | nil => exact absurd rfl h
  | cons a as ih =>
    cases as with
    | nil => simp [joinSlash]
    | cons b bs =>
      have := ih (by simp)
      simp only [List.cons_append, joinSlash] at *
      simp only [List.append_eq] at this ⊢
      rw [this]
      simp [String.append_assoc]

/-- `PathInv anc n`: every node in the subtree rooted at `n` whose ancestor
name list (root included) is `anc` has `rel_path` equal to the ancestor
names plus its own name joined by `"/"`. -/
inductive PathInv : List String → Node → Prop where
  | intro (anc : List String) (d : String) (dirs : List Node)
      (files misc : List String) (rp : String)
      (hrp : rp = joinSlash (anc ++ [d]))
      (hdirs : ∀ c ∈ dirs, PathInv (anc ++ [d]) c) :
      PathInv anc (.mk d dirs files misc rp)

theorem PathInv.rel_path_eq {anc : List String} {n : Node}
    (h : PathInv anc n) : n.rel_path = joinSlash (anc ++ [n.dir]) := by
  cases h with
  | intro anc d dirs files misc rp hrp hdirs => exact hrp

theorem PathInv.children {anc : List String} {n : Node}
    (h : PathInv anc n) : ∀ c ∈ n.dirs, PathInv (anc ++ [n.dir]) c := by
  cases h with
  | intro anc d dirs files misc rp hrp hdirs => exact hdirs

theorem pathInv_insert {anc : List String} {n : Node}
    (h : PathInv anc n) (content content_type : String) :
    PathInv anc (n.insert content content_type) := by
  cases h with
  | intro anc d dirs files misc rp hrp hdirs =>
    unfold Node.insert
    by_cases hty : content_type = "dir"
    · simp only [hty, if_pos rfl]
      refine PathInv.intro anc d _ files misc rp hrp ?_
      intro c hc
      rcases List.mem_append.mp hc with hc | hc
      · exact hdirs c hc
      · have hceq : c = Node.new content (rp ++ "/") := by simpa using hc
        subst hceq
        refine PathInv.intro (anc ++ [d]) content [] [] [] _ ?_ (by simp)
      -- the new child's stored path `rp ++ "/" ++ content` matches the spec path
        rw [hrp, joinSlash_append_single (anc ++ [d]) content (by simp),
          String.append_assoc]
    · simp only [if_neg hty]
      exact PathInv.intro anc d dirs _ misc rp hrp hdirs

theorem pathInv_insertAt {anc : List String} {n : Node}
    (h : PathInv anc n) (addr : List Nat) (content content_type : String) :
    PathInv anc (n.insertAt addr content content_type) := by
  induction addr generalizing anc n with
  | nil =>
    unfold Node.insertAt
    exact pathInv_insert h content content_type
  | cons i rest ih =>
    cases h with
    | intro anc d dirs files misc rp hrp hdirs =>
      unfold Node.insertAt
      cases hget : dirs.get? i with
      | none => exact PathInv.intro anc d dirs files misc rp hrp hdirs
      | some child =>
        refine PathInv.intro anc d _ files misc rp hrp ?_
        intro c hc
        rcases List.mem_or_eq_of_mem_set hc with hc | hc
        · exact hdirs c hc
        · subst hc
          exact ih (hdirs child (List.get?_mem hget))

theorem pathInv_root : PathInv [] rootNode := by
  refine PathInv.intro [] "" [] [] [] "" ?_ (by simp)
  simp [joinSlash]

theorem pathInv_buildTree (ops : List InsertOp) : PathInv [] (buildTree ops) := by
  unfold buildTree
  have : ∀ (l : List InsertOp) (n : Node), PathInv [] n →
      PathInv [] (l.foldl (fun n op => n.insertAt op.addr op.content op.content_type) n) := by
    intro l
    induction l with
    | nil => intro n h; exact h
    | cons op rest ih =>
      intro n h
      exact ih _ (pathInv_insertAt h op.addr op.content op.content_type)
  exact this ops rootNode pathInv_root

/-! ### `printTree` and the misc list -/

mutual

/-- `Node.printTree()`: the lines printed for this node — the folder header,
one `"File "` line per file entry, one `"Misc "` line per misc entry, then
the lines of each child directory in order. -/
def Node.printTree : Node → List String
  | .mk _ dirs files misc rp =>
    ("Contents in folder: " ++ rp) ::
      (files.map (fun f => "File " ++ f) ++ misc.map (fun m => "Misc " ++ m) ++
        printForest dirs)

/-- The concatenated `printTree` output of a list of nodes. -/
def printForest : List Node → List String
  | [] => []
  | n :: ns => n.printTree ++ printForest ns

end

mutual

/-- What the spec describes `printTree` as emitting when no misc entry
exists: the folder header, the `"File "` lines, then the children — no
`"Misc "` line at all. -/
def Node.printTreeNoMisc : Node → List String
  | .mk _ dirs files _ rp =>
    ("Contents in folder: " ++ rp) ::
      (files.map (fun f => "File " ++ f) ++ printForestNoMisc dirs)

/-- The concatenated `printTreeNoMisc` output of a list of nodes. -/
def printForestNoMisc : List Node → List String
  | [] => []
  | n :: ns => n.printTreeNoMisc ++ printForestNoMisc ns

end

/-- `MiscEmpty n`: the `misc` list of every node in the subtree rooted at
`n` is empty. -/
inductive MiscEmpty : Node → Prop where
  | intro (d : String) (dirs : List Node) (files : List String) (rp : String)
      (hdirs : ∀ c ∈ dirs, MiscEmpty c) :
      MiscEmpty (.mk d dirs files [] rp)

theorem miscEmpty_insert {n : Node} (h : MiscEmpty n)
    (content content_type : String) :
    MiscEmpty (n.insert content content_type) := by
  cases h with
  | intro d dirs files rp hdirs =>
    unfold Node.insert
    by_cases hty : content_type = "dir"
    · simp only [hty, if_pos rfl]
      refine MiscEmpty.intro d _ files rp ?_
      intro c hc
      rcases List.mem_append.mp hc with hc | hc
      · exact hdirs c hc
      · have hceq : c = Node.new content (rp ++ "/") := by simpa using hc
        subst hceq
        exact MiscEmpty.intro content [] [] _ (by simp)
    · simp only [if_neg hty]
      exact MiscEmpty.intro d dirs _ rp hdirs

theorem miscEmpty_insertAt {n : Node} (h : MiscEmpty n)
    (addr : List Nat) (content content_type : String) :
    MiscEmpty (n.insertAt addr content content_type) := by
  induction addr generalizing n with
  | nil =>
    unfold Node.insertAt
    exact miscEmpty_insert h content content_type
  | cons i rest ih =>
    cases h with
    | intro d dirs files rp hdirs =>
      unfold Node.insertAt
      cases hget : dirs.get? i with
      | none => exact MiscEmpty.intro d dirs files rp hdirs
      | some child =>
        refine MiscEmpty.intro d _ files rp ?_
        intro c hc
        rcases List.mem_or_eq_of_mem_set hc with hc | hc
        · exact hdirs c hc
        · subst hc
          exact ih (hdirs child (List.get?_mem hget))

theorem miscEmpty_root : MiscEmpty rootNode :=
  MiscEmpty.intro "" [] [] "" (by simp)

theorem miscEmpty_buildTree (ops : List InsertOp) : MiscEmpty (buildTree ops) := by
  unfold buildTree
  have : ∀ (l : List InsertOp) (n : Node), MiscEmpty n →
      MiscEmpty (l.foldl (fun n op => n.insertAt op.addr op.content op.content_type) n) := by
    intro l
    induction l with
    | nil => intro n h; exact h
    | cons op rest ih =>
      intro n h
      exact ih _ (miscEmpty_insertAt h op.addr op.content op.content_type)
  exact this ops rootNode miscEmpty_root

theorem printTree_eq_noMisc {n : Node} (h : MiscEmpty n) :
    n.printTree = n.printTreeNoMisc := by
  induction h with
  | intro d dirs files rp hdirs ih =>
    have hforest : printForest dirs = printForestNoMisc dirs := by
      clear hdirs
      induction dirs with
      | nil => simp [printForest, printForestNoMisc]
      | cons c cs ihcs =>
        have hc := ih c (by simp)
        have hcs : printForest cs = printForestNoMisc cs :=
          ihcs (fun x hx => ih x (by simp [hx]))
        simp [printForest, printForestNoMisc, hc, hcs]
    simp [Node.printTree, Node.printTreeNoMisc, hforest]

/-! ## The `App` client

State and operations of `class App`. The remote repository's branch listing
(what `GET /branches` would return) is passed in as an explicit parameter
`remote`, a list of (branch name, head commit sha) pairs. Each operation
returns, alongside its result, the list of network requests it issued.
-/

/-- A network request issued by an operation. -/
inductive NetCall where
  | fetchBranches
  | createRef (ref sha : String)
  | putContents (path : String)
  | postStatusReq (sha : String)
  | getStatusReq
  deriving DecidableEq

/-- The remote branch listing: (name, head commit sha) pairs. -/
abbrev Remote := List (String × String)

/-- The mutable branch cache of `App`: `self.__branches` and
`self.__branch_current_commit_sha` (kept as an association list). Both are
set to empty by `initialize` and repopulated together by `__getBranches`. -/
structure ClientState where
  branches : List String
  branch_current_commit_sha : List (String × String)
  deriving DecidableEq

/-- The cache as `initialize` leaves it: both containers empty. -/
def initialState : ClientState := ⟨[], []⟩

/-- `self.__default_branch`. -/
def default_branch : String := "develop"

/-- `self.__default_image_branch`. -/
def default_image_branch : String := "figures"

/-- `App.__getBranches`: fetch the branch listing and overwrite both cache
fields. -/
def getBranchesNet (remote : Remote) : ClientState × List NetCall :=
  (⟨remote.map Prod.fst, remote⟩, [NetCall.fetchBranches])

/-- `App.getBranches`: return the cached branch list, populating it first
via `__getBranches` when it is empty. -/
def getBranchesOp (remote : Remote) (s : ClientState) :
    List String × ClientState × List NetCall :=
  if s.branches.isEmpty then
    let (s', calls) := getBranchesNet remote
    (s'.branches, s', calls)
  else
    (s.branches, s, [])

/-- `App.branchExist(branch)`: membership in the `getBranches` result. -/
def branchExistOp (branch : String) (remote : Remote) (s : ClientState) :
    Bool × ClientState × List NetCall :=
  let (bs, s', calls) := getBranchesOp remote s
  (branch ∈ bs, s', calls)

/-- The branch list `createBranch`'s existence checks consult: the cache
when populated, otherwise the freshly fetched listing. -/
def cachedBranches (remote : Remote) (s : ClientState) : List String :=
  if s.branches.isEmpty then remote.map Prod.fst else s.branches

/-- `App.createBranch(branch, branch_to_fork_from = None)`: default the
fork source to the default branch; return early when `branch` exists; raise
when the fork source does not; otherwise POST the new ref at the fork
source's cached head commit sha. -/
def createBranchOp (branch : String) (branch_to_fork_from : Option String)
    (remote : Remote) (s : ClientState) :
    Except String ClientState × List NetCall :=
  let fork := branch_to_fork_from.getD default_branch
  let (ex1, s1, c1) := branchExistOp branch remote s
  if ex1 then (.ok s1, c1)
  else
    let (ex2, s2, c2) := branchExistOp fork remote s1
    if ex2 then
      match s2.branch_current_commit_sha.lookup fork with
      | some sha => (.ok s2, c1 ++ c2 ++ [NetCall.createRef ("refs/heads/" ++ branch) sha])
      | none => (.error "KeyError", c1 ++ c2)
    else
      (.error ("Cannot create new branch: " ++ branch ++ " from " ++ fork ++
        " because " ++ fork ++ " does not exist."), c1 ++ c2)

/-! ### The image-extension check and the upload branch redirect -/

/-- Python `str.lower()` (character-wise lowercasing). -/
def pyLower (s : String) : String := ⟨s.data.map Char.toLower⟩

/-- Python `str.endswith(suffix)`. -/
def pyEndsWith (s suffix : String) : Bool := decide (suffix.data <:+ s.data)

/-- The recognized image extensions, as in
`file_name.lower().endswith(('.png', '.jpg', '.jpeg', '.tiff', '.bmp', '.gif'))`. -/
def imageExtensions : List String :=
  [".png", ".jpg", ".jpeg", ".tiff", ".bmp", ".gif"]

/-- `file_name.lower().endswith((...image extensions...))`. -/
def isImageFile (file_name : String) : Bool :=
  imageExtensions.any (fun e => pyEndsWith (pyLower file_name) e)

/-- Outcome of the branch-redirect preamble of `App.upload`: the effective
branch, the value of `self.__use_wiki` afterwards, and the diagnostic lines
printed. -/
structure RedirectResult where
  branch : String
  use_wiki_self : Bool
  diagnostics : List String
  deriving DecidableEq

/-- Lines 350-355 of `App.upload`: when the file name passes the image
check and `branch != self.__default_image_branch and not self.__ignore`,
two notes are printed, the branch becomes the image branch and
`self.__use_wiki` is cleared; otherwise nothing changes. -/
def uploadRedirect (file_name branch : String) (ignore use_wiki_self : Bool) :
    RedirectResult :=
  if isImageFile file_name then
    if branch ≠ default_image_branch ∧ ¬ignore then
      { branch := default_image_branch
        use_wiki_self := false
        diagnostics :=
          ["Note all images will be uploaded to a branch named: " ++
            default_image_branch ++ " in the main repository.",
           "Unless the ignore flag is used."] }
    else
      ⟨branch, use_wiki_self, []⟩
  else
    ⟨branch, use_wiki_self, []⟩

/-! ### The non-wiki upload commit request -/

/-- The JSON body `custom_data` that the non-wiki branch of `App.upload`
PUTs to the contents endpoint. `sha` is present exactly when the file was
found in the branch contents. -/
structure CommitRequest where
  message : String
  name : String
  branch : String
  sha : Option String
  content : String
  deriving DecidableEq

/-- Lines 380-407 of `App.upload` (non-wiki path, after the branch checks):
look the file name up in the `getContents(branch)` mapping; when found,
build the "overwriting" request carrying the prior sha, else the
"uploading" request with no sha. `contents` is the mapping returned by
`getContents(branch)`; `encoded` is the base64-encoded file body. -/
def uploadCommitRequest (appName file_name branch : String)
    (contents : List (String × String)) (encoded : String) : CommitRequest :=
  match contents.lookup file_name with
  | some sha =>
    { message := appName ++ " overwriting file " ++ file_name
      name := appName
      branch := branch
      sha := some sha
      content := encoded }
  | none =>
    { message := appName ++ " uploading file " ++ file_name
      name := appName
      branch := branch
      sha := none
      content := encoded }

/-- The whole non-wiki path of `App.upload` (lines 373-420): with
auto-create off, raise when the branch does not exist, otherwise fetch the
contents and PUT the commit request. `contents` stands for the
`getContents(branch)` result. Content fetching and the PUT are the
requests recorded; the earlier `branchExist` may itself fetch branches. -/
def uploadNonWiki (appName file_name branch : String) (create_branch : Bool)
    (remote : Remote) (s : ClientState)
    (contents : List (String × String)) (encoded : String) :
    Except String (CommitRequest × ClientState) × List NetCall :=
  if create_branch then
    let (r, c) := createBranchOp branch none remote s
    match r with
    | .ok s1 =>
      (.ok (uploadCommitRequest appName file_name branch contents encoded, s1),
        c ++ [NetCall.putContents file_name])
    | .error e => (.error e, c)
  else
    let (ex, s1, c) := branchExistOp branch remote s
    if ex then
      (.ok (uploadCommitRequest appName file_name branch contents encoded, s1),
        c ++ [NetCall.putContents file_name])
    else
      (.error ("branch: " ++ branch ++ " does not exist in repository."), c)

/-! ### Credential signing guard (`__generateJWT`) -/

/-- `App.__generateJWT`'s key-material selection and guard (lines 136-147):
`PEM` is the parsed first certificate of the pem file when one is given,
otherwise `os.environ.get('PARTHENON_METRICS_APP_PEM')` — which is `None`
(here `Option.none`) when the variable is unset. The guard raises exactly
when `PEM == ""`; in Python `None == ""` is `False`, so an absent
environment variable passes the guard. Returns the key material handed to
`jwt.encode` when no exception is raised. `parseFirstCert` stands for
`str(pem.parse_file(pem_file)[0])`. -/
def generateJWT (pem_file : String) (env_pem : Option String)
    (parseFirstCert : String → String) : Except String (Option String) :=
  let PEM : Option String :=
    if pem_file = "" then env_pem else some (parseFirstCert pem_file)
  if PEM = some "" then
    .error ("No permissions enabled for parthenon metrics app, either a pem file needs to ")
  else
    .ok PEM

/-! ### Commit statuses -/

/-- The accepted states of `App.postStatus`. -/
def state_list : List String := ["pending", "failed", "error", "success"]

/-- `App.postStatus(state, commit_sha=None)`: raise on an unrecognized
state; default the sha from `CI_COMMIT_SHA` and raise when still `None`;
otherwise POST the status. `env_sha` is `os.getenv('CI_COMMIT_SHA')`. -/
def postStatusOp (state : String) (commit_sha : Option String)
    (env_sha : Option String) : Except String (List NetCall) :=
  if state ∉ state_list then
    .error ("Unrecognized state specified " ++ state)
  else
    let sha := match commit_sha with
      | none => env_sha
      | some v => some v
    match sha with
    | none => .error "CI_COMMIT_SHA not defined in environment cannot post status"
    | some v => .ok [NetCall.postStatusReq v]

/-- `App.getStatus()`: raise when `CI_COMMIT_SHA` is unset, otherwise GET
the statuses collection. -/
def getStatusOp (env_sha : Option String) : Except String (List NetCall) :=
  match env_sha with
  | none => .error "CI_COMMIT_SHA not defined in environment cannot post status"
  | some _ => .ok [NetCall.getStatusReq]

/-! ## Helper lemmas about the branch cache -/

theorem getBranchesOp_fst (remote : Remote) (s : ClientState) :
    (getBranchesOp remote s).1 = cachedBranches remote s := by
  unfold getBranchesOp cachedBranches getBranchesNet
  split <;> rfl

theorem cachedBranches_after (remote : Remote) (s : ClientState) :
    cachedBranches remote (getBranchesOp remote s).2.1 = cachedBranches remote s := by
  obtain ⟨bs, m⟩ := s
  cases bs with
  | cons b tl => rfl
  | nil =>
    cases remote with
    | nil => rfl
    | cons r tl => rfl

theorem getBranchesOp_calls (remote : Remote) (s : ClientState) :
    ∀ call ∈ (getBranchesOp remote s).2.2, call = NetCall.fetchBranches := by
  unfold getBranchesOp getBranchesNet
  by_cases h : s.branches.isEmpty <;> simp [h]

theorem branchExistOp_fst (branch : String) (remote : Remote) (s : ClientState) :
    (branchExistOp branch remote s).1 = decide (branch ∈ cachedBranches remote s) := by
  unfold branchExistOp
  rw [← getBranchesOp_fst]

/-! ## The claims -/

/-- C5: for every TreeNode and every sequence of insert operations that
built it, the node's relative path equals the concatenation of all ancestor
names plus its own name, separated by "/" (the root's empty name included),
and the root node has empty name and empty path. -/
theorem c5_node_path_invariant (ops : List InsertOp) :
    PathInv [] (buildTree ops) ∧ rootNode.dir = "" ∧ rootNode.rel_path = "" :=
  ⟨pathInv_buildTree ops, rfl, rfl⟩

/-- C10: for every sequence of insert calls with any kind values, the misc
list of every node stays empty, so printTree's output coincides with the
printer that has no "Misc" loop — printTree never emits a "Misc" line. -/
theorem c10_misc_stays_empty (ops : List InsertOp) :
    MiscEmpty (buildTree ops) ∧
      (buildTree ops).printTree = (buildTree ops).printTreeNoMisc :=
  ⟨miscEmpty_buildTree ops, printTree_eq_noMisc (miscEmpty_buildTree ops)⟩

/-- C1 counterexample: `upload("chart.png", branch="figures")` with wiki
mode off and ignore-override off satisfies the claim's hypotheses (image
extension, no wiki, no ignore), yet the code emits no diagnostic — the
redirect block is skipped because the branch already equals the image
branch. -/
theorem c1_counterexample :
    isImageFile "chart.png" = true ∧
    (uploadRedirect "chart.png" "figures" false false).diagnostics = [] := by
  constructor
  · decide
  · decide

/-- C1 (amended): if the file's extension matches a recognized image type,
neither wiki mode nor ignore-override is set, and the target branch is not
already the default image branch, then the branch is redirected to
"figures", wiki mode is forced off and the two diagnostic lines are
printed; and whenever ignore-override is set, no redirection occurs. -/
theorem c1_image_redirect (file_name branch : String)
    (himg : isImageFile file_name = true) :
    (branch ≠ default_image_branch →
      uploadRedirect file_name branch false false =
        ⟨default_image_branch, false,
         ["Note all images will be uploaded to a branch named: " ++
            default_image_branch ++ " in the main repository.",
          "Unless the ignore flag is used."]⟩) ∧
    (∀ w : Bool, uploadRedirect file_name branch true w = ⟨branch, w, []⟩) := by
  constructor
  · intro hb
    simp [uploadRedirect, himg, hb]
  · intro w
    simp [uploadRedirect, himg]

/-- Witness for C1 (amended) at `upload("chart.png", branch="develop")`. -/
theorem c1_image_redirect_witness :
    uploadRedirect "chart.png" "develop" false false =
      ⟨default_image_branch, false,
       ["Note all images will be uploaded to a branch named: " ++
          default_image_branch ++ " in the main repository.",
        "Unless the ignore flag is used."]⟩ ∧
    uploadRedirect "chart.png" "develop" true false = ⟨"develop", false, []⟩ :=
  ⟨(c1_image_redirect "chart.png" "develop" (by decide)).1 (by decide),
   (c1_image_redirect "chart.png" "develop" (by decide)).2 false⟩

/-- C2: in a non-wiki upload to an existing branch, the commit request is
the "overwriting" one carrying the prior sha exactly when the file name is
a key of the `getContents(branch)` mapping, and the "uploading" one with no
sha when it is not. -/
theorem c2_upload_commit_message (appName file_name branch encoded : String)
    (contents : List (String × String)) (remote : Remote) (s : ClientState)
    (hex : branch ∈ cachedBranches remote s) :
    (∃ s1 calls,
      uploadNonWiki appName file_name branch false remote s contents encoded =
        (.ok (uploadCommitRequest appName file_name branch contents encoded, s1),
          calls)) ∧
    (∀ sha, contents.lookup file_name = some sha →
      uploadCommitRequest appName file_name branch contents encoded =
        ⟨appName ++ " overwriting file " ++ file_name, appName, branch,
          some sha, encoded⟩) ∧
    (contents.lookup file_name = none →
      uploadCommitRequest appName file_name branch contents encoded =
        ⟨appName ++ " uploading file " ++ file_name, appName, branch,
          none, encoded⟩) := by
  refine ⟨?_, ?_, ?_⟩
  · refine ⟨(branchExistOp branch remote s).2.1,
      (branchExistOp branch remote s).2.2 ++ [NetCall.putContents file_name], ?_⟩
    unfold uploadNonWiki branchExistOp
    simp [getBranchesOp_fst, hex]
  · intro sha hsha
    unfold uploadCommitRequest
    rw [hsha]
  · intro hnone
    unfold uploadCommitRequest
    rw [hnone]

/-- Witness for C2: uploading `"f.txt"` (present, sha `"abc"`) and
`"g.txt"` (absent) to the existing branch `"develop"`. -/
theorem c2_upload_commit_message_witness :
    (("develop" : String) ∈ cachedBranches [("develop", "d0")] initialState) ∧
    uploadCommitRequest "app" "f.txt" "develop" [("f.txt", "abc")] "ZW5j" =
      ⟨"app" ++ " overwriting file " ++ "f.txt", "app", "develop",
        some "abc", "ZW5j"⟩ ∧
    uploadCommitRequest "app" "g.txt" "develop" [("f.txt", "abc")] "ZW5j" =
      ⟨"app" ++ " uploading file " ++ "g.txt", "app", "develop",
        none, "ZW5j"⟩ :=
  ⟨by decide,
    (c2_upload_commit_message "app" "f.txt" "develop" "ZW5j" [("f.txt", "abc")]
      [("develop", "d0")] initialState (by decide)).2.1 "abc" (by decide),
    (c2_upload_commit_message "app" "g.txt" "develop" "ZW5j" [("f.txt", "abc")]
      [("develop", "d0")] initialState (by decide)).2.2 (by decide)⟩

/-- C3 (code bug): with no pem file and the `PARTHENON_METRICS_APP_PEM`
environment variable unset, `__generateJWT` does not raise — Python's
`os.environ.get` yields `None`, the guard compares it with `""` (false),
and signing proceeds with absent key material, contradicting the guard's
own error message and the spec. -/
theorem c3_generateJWT_missing_key_no_raise :
    generateJWT "" none (fun s => s) = Except.ok none := rfl

/-- C4: `createBranch(name, forkFrom)` when `name` is already in the cached
branch list returns immediately: no network call is issued and the cache is
unchanged. -/
theorem c4_createBranch_existing_noop (branch : String)
    (fork : Option String) (remote : Remote) (s : ClientState)
    (h : branch ∈ s.branches) :
    createBranchOp branch fork remote s = (.ok s, []) := by
  have hne : s.branches.isEmpty = false := by
    cases hb : s.branches with
    | nil => rw [hb] at h; simp at h
    | cons a l => rfl
  unfold createBranchOp branchExistOp getBranchesOp
  simp [hne, h]

/-- Witness for C4: creating `"x"` when `"x"` is already cached. -/
theorem c4_createBranch_existing_noop_witness :
    createBranchOp "x" (some "develop") [] ⟨["x", "develop"], [("x", "s0"), ("develop", "s1")]⟩ =
      (.ok ⟨["x", "develop"], [("x", "s0"), ("develop", "s1")]⟩, []) :=
  c4_createBranch_existing_noop "x" (some "develop") []
    ⟨["x", "develop"], [("x", "s0"), ("develop", "s1")]⟩ (by decide)

/-- C6: `createBranch(name, forkFrom)` when neither `name` nor `forkFrom`
is in the consulted cached branch list raises the "does not exist" error
and issues no ref-creation request. -/
theorem c6_createBranch_missing_fork (branch fork : String) (remote : Remote)
    (s : ClientState)
    (h1 : branch ∉ cachedBranches remote s)
    (h2 : fork ∉ cachedBranches remote s) :
    (createBranchOp branch (some fork) remote s).1 =
      .error ("Cannot create new branch: " ++ branch ++ " from " ++ fork ++
        " because " ++ fork ++ " does not exist.") ∧
    ∀ ref sha, NetCall.createRef ref sha ∉ (createBranchOp branch (some fork) remote s).2 := by
  constructor
  · unfold createBranchOp branchExistOp
    simp [getBranchesOp_fst, cachedBranches_after, h1, h2]
  · intro ref sha
    unfold createBranchOp branchExistOp
    simp only [getBranchesOp_fst, cachedBranches_after, Option.getD]
    rw [if_neg (by simpa using h1), if_neg (by simpa using h2)]
    simp only [List.mem_append]
    intro hmem
    rcases hmem with hmem | hmem
    · exact absurd (getBranchesOp_calls remote s _ hmem) (by simp)
    · exact absurd (getBranchesOp_calls remote _ _ hmem) (by simp)

/-- Witness for C6: `createBranch("x", "ghost")` with the cache holding
only `"develop"`. -/
theorem c6_createBranch_missing_fork_witness :
    (createBranchOp "x" (some "ghost") [] ⟨["develop"], [("develop", "d0")]⟩).1 =
      .error ("Cannot create new branch: " ++ "x" ++ " from " ++ "ghost" ++
        " because " ++ "ghost" ++ " does not exist.") ∧
    NetCall.createRef "refs/heads/x" "d0" ∉
      (createBranchOp "x" (some "ghost") [] ⟨["develop"], [("develop", "d0")]⟩).2 :=
  ⟨(c6_createBranch_missing_fork "x" "ghost" [] ⟨["develop"], [("develop", "d0")]⟩
      (by decide) (by decide)).1,
   (c6_createBranch_missing_fork "x" "ghost" [] ⟨["develop"], [("develop", "d0")]⟩
      (by decide) (by decide)).2 "refs/heads/x" "d0"⟩

/-- C7: `postStatus(state)` with a state outside
{pending, failed, error, success} raises the "Unrecognized state" error
before issuing any network request (the error result carries no request). -/
theorem c7_postStatus_invalid_state (state : String)
    (commit_sha env_sha : Option String) (h : state ∉ state_list) :
    postStatusOp state commit_sha env_sha =
      .error ("Unrecognized state specified " ++ state) := by
  unfold postStatusOp
  simp [h]

/-- Witness for C7 at `postStatus("bogus")`. -/
theorem c7_postStatus_invalid_state_witness :
    postStatusOp "bogus" none none =
      .error ("Unrecognized state specified " ++ "bogus") :=
  c7_postStatus_invalid_state "bogus" none none (by decide)

/-- C8: with `CI_COMMIT_SHA` unset, `postStatus` called with a valid state
and no explicit sha, and `getStatus`, both raise the configuration error
before issuing any network request. -/
theorem c8_status_missing_env (state : String) (h : state ∈ state_list) :
    postStatusOp state none none =
      .error "CI_COMMIT_SHA not defined in environment cannot post status" ∧
    getStatusOp none =
      .error "CI_COMMIT_SHA not defined in environment cannot post status" := by
  constructor
  · unfold postStatusOp
    simp [h]
  · rfl

/-- Witness for C8 at `postStatus("pending")` and `getStatus()`. -/
theorem c8_status_missing_env_witness :
    (postStatusOp "pending" none none =
      .error "CI_COMMIT_SHA not defined in environment cannot post status" ∧
    getStatusOp none =
      .error "CI_COMMIT_SHA not defined in environment cannot post status") :=
  c8_status_missing_env "pending" (by decide)

/-- C9: the image check is case-insensitive — any file name ending in a
letter-case variant of a recognized image extension passes `isImageFile`
(the name is lowercased before the `endswith` test), and such a file is
redirected to the image branch under the redirect conditions. -/
theorem c9_image_check_case_insensitive (stem v ext : String)
    (hext : ext ∈ imageExtensions) (hlow : pyLower v = ext) :
    isImageFile (stem ++ v) = true ∧
    ∀ branch, branch ≠ default_image_branch →
      (uploadRedirect (stem ++ v) branch false false).branch =
        default_image_branch := by
  have hdata : (pyLower (stem ++ v)).data =
      stem.data.map Char.toLower ++ ext.data := by
    have hv : v.data.map Char.toLower = ext.data := congrArg String.data hlow
    show ((stem ++ v).data.map Char.toLower) = _
    rw [String.data_append, List.map_append, hv]
  have himg : isImageFile (stem ++ v) = true := by
    unfold isImageFile
    rw [List.any_eq_true]
    refine ⟨ext, hext, ?_⟩
    unfold pyEndsWith
    rw [hdata]
    exact decide_eq_true (List.suffix_append _ _)
  refine ⟨himg, ?_⟩
  intro branch hb
  simp [uploadRedirect, himg, hb]

/-- Witness for C9 at `"chart" ++ ".PNG"`, a capitalized png extension. -/
theorem c9_image_check_case_insensitive_witness :
    isImageFile ("chart" ++ ".PNG") = true ∧
    (uploadRedirect ("chart" ++ ".PNG") "develop" false false).branch =
      default_image_branch :=
  ⟨(c9_image_check_case_insensitive "chart" ".PNG" ".png" (by decide) (by decide)).1,
   (c9_image_check_case_insensitive "chart" ".PNG" ".png" (by decide) (by decide)).2
      "develop" (by decide)⟩

end ParthenonApp
